import Mathlib

/-!
Verification of the kgpy dspk histogram / threshold kernel
(src/kgpy/img/dspk/distribution.cpp and src/kgpy/img/dspk/threshold.cpp).

The C code computes over 32-bit floats; the embedding idealises every
floating-point value as an exact rational, every C int as an integer, and
array sizes as naturals.  Conversions from float to int in the C source
(casts and assignments such as `int min_cnts = sigma / interval`) truncate
toward zero; `fTrunc` below models that conversion.  Arrays are modelled as
functions from indices to rationals, and the sequential elaboration of each
loop (the code as written, ignoring the OpenACC pragmas) is modelled by
structural recursion or folds over index lists in increasing order.
-/

namespace Dspk

/-- Truncation toward zero, the semantics of a C cast from a floating-point
value to `int`. -/
def fTrunc (q : ℚ) : ℤ := if 0 ≤ q then ⌊q⌋ else ⌈q⌉

/-- `hist2data` of distribution.cpp: `delta = (m_max - m_min)/(nbins - 1);
val = hval * delta + m_min`. -/
def hist2data (hval : ℤ) (mmin mmax : ℚ) (nbins : ℕ) : ℚ :=
  (hval : ℚ) * ((mmax - mmin) / ((nbins : ℚ) - 1)) + mmin

/-- `data2hist` of distribution.cpp: `delta = (m_max - m_min)/(nbins - 1);
index = floor((dval - m_min)/delta)`. -/
def data2hist (dval mmin mmax : ℚ) (nbins : ℕ) : ℤ :=
  ⌊(dval - mmin) / ((mmax - mmin) / ((nbins : ℚ) - 1))⌋

/-- `min_samples` of threshold.cpp: `interval = fmin(1 - thresh, thresh);
sigma = 15; int min_cnts = sigma / interval` — the assignment to `int`
truncates toward zero. -/
def min_samples (thresh : ℚ) : ℤ := fTrunc (15 / min (1 - thresh) thresh)

/-- `calc_intercept` of threshold.cpp: `y0 - m * x0`. -/
def calc_intercept (x0 : ℕ) (y0 : ℤ) (m : ℚ) : ℚ := (y0 : ℚ) - m * (x0 : ℚ)

/-- A pixel of the data volume together with its goodness-mask entry and
its local statistic (`lmed`).  The volume is modelled as the list of its
pixels in the z, y, x iteration order of `calc_histogram`. -/
structure Pixel where
  data : ℚ
  gmap : ℚ
  lmed : ℚ

/-- Modelled from the spec: the sentinel value `bad_pix` and the `DB`
record live in util.h, which is not among the repository files; the spec
says only that a sentinel "bad" value marks pixels excluded from all
histogram accumulation, so the sentinel is a parameter `bad` of the
embedding.  Effect of `init_histogram` on slice `axis`: every histogram
entry is zeroed before accumulation. -/
def init_histogram_hist : ℤ × ℤ → ℚ := fun _ => 0

/-- One iteration of the pixel loop of `calc_histogram`: skip the pixel
when its gmap entry equals the sentinel, else increment bin `(Y, X)` of
slice `axis` where `X = data2hist(lmed, dmin, dmax, hsz.x)` and
`Y = data2hist(data, dmin, dmax, hsz.y)`. -/
def calc_histogram_step (bad dmin dmax : ℚ) (hsx hsy : ℕ)
    (hist : ℤ × ℤ → ℚ) (p : Pixel) : ℤ × ℤ → ℚ :=
  if p.gmap = bad then hist
  else fun q =>
    if q = (data2hist p.data dmin dmax hsy, data2hist p.lmed dmin dmax hsx)
    then hist q + 1 else hist q

/-- `calc_histogram` of distribution.cpp restricted to slice `axis`: fold
of the per-pixel increment over the data volume, starting from the
histogram as it stands. -/
def calc_histogram (bad dmin dmax : ℚ) (hsx hsy : ℕ)
    (pixels : List Pixel) (hist : ℤ × ℤ → ℚ) : ℤ × ℤ → ℚ :=
  pixels.foldl (calc_histogram_step bad dmin dmax hsx hsy) hist

/-- The running sum of the first y loop of `calc_cumulative_distribution`
for one statistic-bin column `h := fun y => hist[axis][y][x]`: the value of
`sum` (and of `cumd[H]`) right after the iteration for `y`. -/
def col_cumsum (h : ℕ → ℚ) : ℕ → ℚ
  | 0 => h 0
  | y + 1 => col_cumsum h y + h (y + 1)

/-- The value of `sum` after the first y loop of
`calc_cumulative_distribution` has run over `y = 0, …, hsy - 1`; this is
what the code stores into `cnts[C]`. -/
def col_total (h : ℕ → ℚ) : ℕ → ℚ
  | 0 => 0
  | n + 1 => col_cumsum h n

/-- The `cnts` entry written by `calc_cumulative_distribution` for one
column. -/
def calc_cumulative_distribution_cnts (h : ℕ → ℚ) (hsy : ℕ) : ℚ :=
  col_total h hsy

/-- The final `cumd` entry for one column after the normalize loop of
`calc_cumulative_distribution`: `cumd[H] / sum` when `sum != 0`, else 0. -/
def calc_cumulative_distribution_cumd (h : ℕ → ℚ) (hsy y : ℕ) : ℚ :=
  if col_total h hsy ≠ 0 then col_cumsum h y / col_total h hsy else 0

/-- The final (normalized) `hist` entry for one column after the normalize
loop of `calc_cumulative_distribution`: `hist[H] / sum` when `sum != 0`,
else 0. -/
def calc_cumulative_distribution_hist (h : ℕ → ℚ) (hsy y : ℕ) : ℚ :=
  if col_total h hsy ≠ 0 then h y / col_total h hsy else 0

/-- The final `icmd` entry after `calc_intensity_cumulative_distribution`,
the 1D analogue over the whole intensity histogram (single column, loop
variable named x in the code). -/
def calc_intensity_cumulative_distribution_icmd (ihst : ℕ → ℚ) (hsx x : ℕ) : ℚ :=
  if col_total ihst hsx ≠ 0 then col_cumsum ihst x / col_total ihst hsx else 0

/-- The final (normalized) `ihst` entry after
`calc_intensity_cumulative_distribution`. -/
def calc_intensity_cumulative_distribution_ihst (ihst : ℕ → ℚ) (hsx x : ℕ) : ℚ :=
  if col_total ihst hsx ≠ 0 then ihst x / col_total ihst hsx else 0

/-- One scan loop of `calc_exact_thresh` for a column with cumulative
values `c`: starting at index `y` with `f` iterations left (the code runs
`y` up to `hsz.y`), return the first index whose value strictly exceeds the
cutoff `t`, or none when the loop runs out. -/
def findAbove (c : ℕ → ℚ) (t : ℚ) : ℕ → ℕ → Option ℕ
  | _, 0 => none
  | y, f + 1 => if t < c y then some y else findAbove c t (y + 1) f

/-- The value of the loop variable `y` of `calc_exact_thresh` after its
first (tmin) scan: the break index, or `hsz.y` when the loop ran to the
end. -/
def exact_lower_stop (c : ℕ → ℚ) (tmin : ℚ) (hsy : ℕ) : ℕ :=
  match findAbove c tmin 0 hsy with
  | some y => y
  | none => hsy

/-- The `t1` entry `calc_exact_thresh` computes for column `x`:
initialized to `x`, then overwritten by the first `Y ≥ exact_lower_stop`
(the second loop resumes where the first stopped) with `cumd > tmax`. -/
def calc_exact_thresh_t1 (c : ℕ → ℚ) (tmin tmax : ℚ) (hsy x : ℕ) : ℚ :=
  match findAbove c tmax (exact_lower_stop c tmin hsy)
      (hsy - exact_lower_stop c tmin hsy) with
  | some Y => (Y : ℚ)
  | none => (x : ℚ)

/-- Modelled from the spec words (the reference behaviour claim C3
compares against): an independent full scan from `y = 0` for the first
crossing of `tmax`, keeping the initialization value `x` when none
exists. -/
def full_scan_t1 (c : ℕ → ℚ) (tmax : ℚ) (hsy x : ℕ) : ℚ :=
  match findAbove c tmax 0 hsy with
  | some Y => (Y : ℚ)
  | none => (x : ℚ)

/-- One iteration of the x loop of `apply_extrap_thresh` (sequential
elaboration of the code): the anchor `t[x0]` is re-read inside the loop
through an `int` cast (`int y0 = t[...]`, truncation toward zero); when
the column count is below `min_cnts` the entry `t[x]` is overwritten with
`m * x + b` clamped by `fmax(fmin(., hsz.y - 1), 0)`. -/
def apply_extrap_thresh_step (m : ℚ) (cnts : ℕ → ℚ) (mc : ℤ) (x0 hy : ℕ)
    (t : ℕ → ℚ) (x : ℕ) : ℕ → ℚ :=
  if cnts x < (mc : ℚ) then
    fun z =>
      if z = x then
        max (min (m * (x : ℚ) + calc_intercept x0 (fTrunc (t x0)) m) ((hy : ℚ) - 1)) 0
      else t z
  else t

/-- `apply_extrap_thresh` of threshold.cpp, with the slope `m = tan(theta)`
passed as a parameter (tan is a real transcendental evaluated once per
call; the embedding takes its value), and `min_cnts = min_samples thresh`
as in the code. -/
def apply_extrap_thresh (m : ℚ) (cnts : ℕ → ℚ) (thresh : ℚ)
    (x0 hx hy : ℕ) (t : ℕ → ℚ) : ℕ → ℚ :=
  (List.range hx).foldl (apply_extrap_thresh_step m cnts (min_samples thresh) x0 hy) t

/-- One iteration of the x loop inside one theta step of
`median_extrapolation`: only significant columns (`cnts > min_cnts`) vote;
a significant column whose threshold value lies strictly above the line
(`Y > y` in the code) increments `usum`, any other significant column
increments `lsum`; the state is `(lsum, usum)`.  As in
`apply_extrap_thresh`, the anchor `t[x0]` is read through an `int` cast
and `m = tan(theta)` is the slope of this step. -/
def median_extrapolation_count_step (m : ℚ) (t cnts : ℕ → ℚ) (mc : ℤ) (x0 : ℕ)
    (s : ℚ × ℚ) (x : ℕ) : ℚ × ℚ :=
  if (mc : ℚ) < cnts x then
    if m * (x : ℚ) + calc_intercept x0 (fTrunc (t x0)) m < t x then (s.1, s.2 + 1)
    else (s.1 + 1, s.2)
  else s

/-- The `(lsum, usum)` pair after the x loop of one theta step of
`median_extrapolation`. -/
def median_extrapolation_sums (m : ℚ) (t cnts : ℕ → ℚ) (mc : ℤ) (x0 hx : ℕ) : ℚ × ℚ :=
  (List.range hx).foldl (median_extrapolation_count_step m t cnts mc x0) (0, 0)

/-- The acceptance test `ratio = lsum / (usum + lsum) >= 0.50` of one
theta step (in the rationals 0 / 0 = 0, so an empty vote fails the test
just as the NaN ratio of the float code fails its comparison). -/
def median_ratio_ok (m : ℚ) (t cnts : ℕ → ℚ) (mc : ℤ) (x0 hx : ℕ) : Bool :=
  decide ((1 : ℚ) / 2 ≤ (median_extrapolation_sums m t cnts mc x0 hx).1 /
    ((median_extrapolation_sums m t cnts mc x0 hx).2 +
      (median_extrapolation_sums m t cnts mc x0 hx).1))

/-- The number of iterations of the theta loop of `median_extrapolation`:
`theta_k = k * pi / (hsz.x + hsz.y)` runs while `theta_k < pi / 2`, that
is while `2 k < hsz.x + hsz.y`. -/
def nSteps (hx hy : ℕ) : ℕ := (hx + hy + 1) / 2

/-- The theta loop of `median_extrapolation` over step indices: return the
first index `k` whose test passes, or 0 when the sweep is exhausted
(matching `return 0.0`, which is also `theta_0`). -/
def sweep_first (cond : ℕ → Bool) : ℕ → ℕ → ℕ
  | _, 0 => 0
  | k, f + 1 => if cond k then k else sweep_first cond (k + 1) f

/-- `median_extrapolation` of threshold.cpp in the step-index abstraction:
`slope k` stands for `tan(k * pi / (hsz.x + hsz.y))` (the tangent of a
transcendental angle, so the sweep of slopes is a parameter of the
embedding), and the returned index `k` stands for the returned angle
`theta = k * pi / (hsz.x + hsz.y)`. -/
def median_extrapolation (slope : ℕ → ℚ) (t cnts : ℕ → ℚ) (thresh : ℚ)
    (x0 hx hy : ℕ) : ℕ :=
  sweep_first (fun k => median_ratio_ok (slope k) t cnts (min_samples thresh) x0 hx)
    0 (nSteps hx hy)

/-- Modelled from the spec words (the acceptance criterion claim C4
states): among the statistically significant columns, the fraction whose
threshold value lies on or below the line through `(x0, anchor)` with
slope `m` is at least one half. -/
def significant_below_frac_ok (m anchor : ℚ) (t cnts : ℕ → ℚ) (mc : ℤ)
    (x0 hx : ℕ) : Bool :=
  decide ((1 : ℚ) / 2 ≤
    ((((List.range hx).filter (fun x => decide ((mc : ℚ) < cnts x))).countP
      (fun x => decide (t x ≤ m * (x : ℚ) + (anchor - m * (x0 : ℚ))))) : ℚ) /
    ((((List.range hx).filter (fun x => decide ((mc : ℚ) < cnts x))).length) : ℚ))

/-- One iteration of a found-flag scan of `calc_intensity_thresh`: with
state `(found, value)`, the code runs
`if ((c > t) and (not found)) { value = f x; found = true }`. -/
def intensity_scan_step (c : ℕ → ℚ) (t : ℚ) (f : ℕ → ℚ)
    (s : Bool × ℚ) (x : ℕ) : Bool × ℚ :=
  if t < c x ∧ s.1 = false then (true, f x) else s

/-- `i9` after `calc_intensity_thresh`: initialized to 0.0, then the first
bin with `icmd > tmin` stores `x - 1` (int arithmetic, so -1 at bin 0). -/
def calc_intensity_thresh_i9 (icmd : ℕ → ℚ) (tmin : ℚ) (hsx : ℕ) : ℚ :=
  ((List.range hsx).foldl
    (intensity_scan_step icmd tmin (fun x => (x : ℚ) - 1)) (false, 0)).2

/-- `i1` after `calc_intensity_thresh`: initialized to 0.0, then the first
bin with `icmd > tmax` stores `(float) x`. -/
def calc_intensity_thresh_i1 (icmd : ℕ → ℚ) (tmax : ℚ) (hsx : ℕ) : ℚ :=
  ((List.range hsx).foldl
    (intensity_scan_step icmd tmax (fun x => (x : ℚ))) (false, 0)).2

/-- The concrete slope sweep of the C4 counterexample: `hsz = (2, 2)`, so
the sweep step is `pi / 4` and the sweep angles are 0 and `pi / 4`, whose
tangents are exactly 0 and 1. -/
def med_cex_slope : ℕ → ℚ := fun k => if k = 0 then 0 else 1

/-- The threshold curve of the C4 counterexample: a non-integer anchor
value 1/2 at column 0, and 3/10 at column 1. -/
def med_cex_t : ℕ → ℚ := fun x => if x = 0 then 1/2 else 3/10

/-- The column counts of the C4 counterexample: only column 1 is
statistically significant at `thresh = 1/2`. -/
def med_cex_cnts : ℕ → ℚ := fun x => if x = 0 then 0 else 100

theorem fTrunc_eq_floor (q : ℚ) (h : 0 ≤ q) : fTrunc q = ⌊q⌋ := by
  simp [fTrunc, h]

theorem fTrunc_intCast (n : ℤ) : fTrunc (n : ℚ) = n := by
  rcases le_or_lt 0 (n : ℚ) with h | h
  · simp [fTrunc, h]
  · simp [fTrunc, not_le.mpr h, Int.ceil_intCast]

theorem min_samples_value_at (t v : ℚ) (hv : min (1 - t) t = v) (hv0 : 0 < v)
    (n : ℤ) (hn : (n : ℚ) ≤ 15 / v) (hn1 : 15 / v < (n : ℚ) + 1) :
    min_samples t = n := by
  unfold min_samples fTrunc
  rw [hv]
  have hq : (0 : ℚ) ≤ 15 / v := le_of_lt (div_pos (by norm_num) hv0)
  rw [if_pos hq]
  exact Int.floor_eq_iff.mpr ⟨by exact_mod_cast hn, by exact_mod_cast hn1⟩

theorem col_cumsum_eq_sum (h : ℕ → ℚ) (y : ℕ) :
    col_cumsum h y = ∑ i ∈ Finset.range (y + 1), h i := by
  induction y with
  | zero => simp [col_cumsum]
  | succ y ih =>
    rw [col_cumsum, ih]
    exact (Finset.sum_range_succ h (y + 1)).symm

theorem col_total_eq_sum (h : ℕ → ℚ) (n : ℕ) :
    col_total h n = ∑ i ∈ Finset.range n, h i := by
  cases n with
  | zero => simp [col_total]
  | succ n => rw [col_total, col_cumsum_eq_sum]

theorem calc_histogram_count (bad dmin dmax : ℚ) (hsx hsy : ℕ) :
    ∀ (pixels : List Pixel) (hist : ℤ × ℤ → ℚ) (q : ℤ × ℤ),
      calc_histogram bad dmin dmax hsx hsy pixels hist q =
        hist q + (pixels.countP (fun p => decide (p.gmap ≠ bad ∧
          data2hist p.data dmin dmax hsy = q.1 ∧
          data2hist p.lmed dmin dmax hsx = q.2)) : ℚ) := by
  intro pixels
  induction pixels with
  | nil =>
    intro hist q
    simp [calc_histogram]
  | cons p l ih =>
    intro hist q
    have hcons : calc_histogram bad dmin dmax hsx hsy (p :: l) hist =
        calc_histogram bad dmin dmax hsx hsy l
          (calc_histogram_step bad dmin dmax hsx hsy hist p) := rfl
    rw [hcons, ih, List.countP_cons]
    have hstep : calc_histogram_step bad dmin dmax hsx hsy hist p q =
        hist q + (if p.gmap ≠ bad ∧ data2hist p.data dmin dmax hsy = q.1 ∧
          data2hist p.lmed dmin dmax hsx = q.2 then (1 : ℚ) else 0) := by
      unfold calc_histogram_step
      by_cases hb : p.gmap = bad
      · simp [hb]
      · rw [if_neg hb]
        by_cases hq : q = (data2hist p.data dmin dmax hsy, data2hist p.lmed dmin dmax hsx)
        · rw [if_pos hq, if_pos ⟨hb, by rw [hq], by rw [hq]⟩]
        · rw [if_neg hq, if_neg ?_]
          · rw [add_zero]
          · rintro ⟨-, h1, h2⟩
            exact hq (Prod.ext h1.symm h2.symm)
    rw [hstep]
    by_cases hp : p.gmap ≠ bad ∧ data2hist p.data dmin dmax hsy = q.1 ∧
        data2hist p.lmed dmin dmax hsx = q.2
    · simp only [hp, if_true, decide_eq_true_eq, if_pos hp]
      push_cast
      ring
    · simp only [hp, if_false, decide_eq_true_eq, if_neg hp]
      push_cast
      ring

theorem sum_ite_int_eq (m : ℤ) (n : ℕ) :
    (∑ y ∈ Finset.range n, if m = (y : ℤ) then (1 : ℕ) else 0)
      = if 0 ≤ m ∧ m < (n : ℤ) then 1 else 0 := by
  by_cases h0 : 0 ≤ m
  · obtain ⟨k, rfl⟩ := Int.eq_ofNat_of_zero_le h0
    simp only [Int.natCast_inj]
    rw [Finset.sum_ite_eq (Finset.range n) k (fun _ => 1)]
    simp [Finset.mem_range, h0, Int.ofNat_lt]
  · rw [if_neg (fun hc => h0 hc.1)]
    refine Finset.sum_eq_zero ?_
    intro y _
    rw [if_neg]
    intro hc
    exact h0 (hc ▸ Int.ofNat_nonneg y)

theorem countP_sum_over_bins (P : Pixel → Bool) (vb : Pixel → ℤ) (n : ℕ) :
    ∀ l : List Pixel,
      (∑ y ∈ Finset.range n, l.countP (fun p => P p && decide (vb p = (y : ℤ))))
        = l.countP (fun p => P p && decide (0 ≤ vb p ∧ vb p < (n : ℤ))) := by
  intro l
  induction l with
  | nil => simp
  | cons p l ih =>
    simp only [List.countP_cons]
    rw [Finset.sum_add_distrib, ih]
    congr 1
    by_cases hP : P p = true
    · simp only [hP, Bool.true_and, decide_eq_true_eq]
      exact sum_ite_int_eq (vb p) n
    · simp only [Bool.not_eq_true] at hP
      simp [hP]

/-- Claim C1: starting from the zeroed histogram of `init_histogram`, when
every non-masked pixel maps to in-range bins, every entry of slice `axis`
after `calc_histogram` is a non-negative integer; the count `cnts[x]`
recorded by the summation pass of `calc_cumulative_distribution` equals
the number of non-masked pixels whose local statistic maps to statistic
bin `x`; and the whole accumulated histogram is the same for any
processing order of the pixels. -/
theorem calc_histogram_cnts (bad dmin dmax : ℚ) (hsx hsy : ℕ) (pixels : List Pixel)
    (hrange : ∀ p ∈ pixels, p.gmap ≠ bad →
      (0 ≤ data2hist p.lmed dmin dmax hsx ∧ data2hist p.lmed dmin dmax hsx < (hsx : ℤ)) ∧
      (0 ≤ data2hist p.data dmin dmax hsy ∧ data2hist p.data dmin dmax hsy < (hsy : ℤ))) :
    (∀ q : ℤ × ℤ, ∃ n : ℕ,
      calc_histogram bad dmin dmax hsx hsy pixels init_histogram_hist q = (n : ℚ)) ∧
    (∀ x : ℕ, x < hsx →
      calc_cumulative_distribution_cnts
        (fun y => calc_histogram bad dmin dmax hsx hsy pixels init_histogram_hist
          ((y : ℤ), (x : ℤ))) hsy
        = (pixels.countP (fun p => decide (p.gmap ≠ bad ∧
            data2hist p.lmed dmin dmax hsx = (x : ℤ))) : ℚ)) ∧
    (∀ l₂ : List Pixel, pixels.Perm l₂ →
      calc_histogram bad dmin dmax hsx hsy l₂ init_histogram_hist =
        calc_histogram bad dmin dmax hsx hsy pixels init_histogram_hist) := by
  refine ⟨?_, ?_, ?_⟩
  · intro q
    refine ⟨pixels.countP (fun p => decide (p.gmap ≠ bad ∧
      data2hist p.data dmin dmax hsy = q.1 ∧
      data2hist p.lmed dmin dmax hsx = q.2)), ?_⟩
    rw [calc_histogram_count]
    simp [init_histogram_hist]
  · intro x hx
    unfold calc_cumulative_distribution_cnts
    rw [col_total_eq_sum]
    have hterm : ∀ y : ℕ,
        calc_histogram bad dmin dmax hsx hsy pixels init_histogram_hist ((y : ℤ), (x : ℤ))
          = (pixels.countP (fun p => decide (p.gmap ≠ bad ∧
              data2hist p.lmed dmin dmax hsx = (x : ℤ)) &&
              decide (data2hist p.data dmin dmax hsy = (y : ℤ))) : ℚ) := by
      intro y
      rw [calc_histogram_count]
      simp only [init_histogram_hist, zero_add]
      congr 1
      refine List.countP_congr ?_
      intro p _
      simp only [decide_eq_true_eq, Bool.and_eq_true, decide_eq_true_eq]
      constructor
      · rintro ⟨h1, h2, h3⟩
        exact ⟨⟨h1, h3⟩, h2⟩
      · rintro ⟨⟨h1, h3⟩, h2⟩
        exact ⟨h1, h2, h3⟩
    calc (∑ y ∈ Finset.range hsy,
            calc_histogram bad dmin dmax hsx hsy pixels init_histogram_hist
              ((y : ℤ), (x : ℤ)))
        = (((∑ y ∈ Finset.range hsy,
            pixels.countP (fun p => decide (p.gmap ≠ bad ∧
              data2hist p.lmed dmin dmax hsx = (x : ℤ)) &&
              decide (data2hist p.data dmin dmax hsy = (y : ℤ)))) : ℕ) : ℚ) := by
          rw [Nat.cast_sum]
          exact Finset.sum_congr rfl (fun y _ => hterm y)
      _ = ((pixels.countP (fun p => decide (p.gmap ≠ bad ∧
              data2hist p.lmed dmin dmax hsx = (x : ℤ)) &&
              decide (0 ≤ data2hist p.data dmin dmax hsy ∧
                data2hist p.data dmin dmax hsy < (hsy : ℤ))) : ℕ) : ℚ) := by
          rw [countP_sum_over_bins]
      _ = (pixels.countP (fun p => decide (p.gmap ≠ bad ∧
              data2hist p.lmed dmin dmax hsx = (x : ℤ))) : ℚ) := by
          congr 1
          refine List.countP_congr ?_
          intro p hp
          simp only [Bool.and_eq_true, decide_eq_true_eq]
          constructor
          · rintro ⟨⟨h1, h3⟩, -⟩
            exact ⟨h1, h3⟩
          · rintro ⟨h1, h3⟩
            exact ⟨⟨h1, h3⟩, (hrange p hp h1).2⟩
  · intro l₂ hperm
    funext q
    rw [calc_histogram_count, calc_histogram_count]
    rw [hperm.countP_eq]

/-- Witness for C1: a single good pixel with value and statistic 1 in a
4-bin histogram over the range `[1, 4]`, sentinel -1. -/
theorem calc_histogram_cnts_witness :
    (∀ q : ℤ × ℤ, ∃ n : ℕ,
      calc_histogram (-1) 1 4 4 4 [⟨1, 0, 1⟩] init_histogram_hist q = (n : ℚ)) ∧
    (∀ x : ℕ, x < 4 →
      calc_cumulative_distribution_cnts
        (fun y => calc_histogram (-1) 1 4 4 4 [⟨1, 0, 1⟩] init_histogram_hist
          ((y : ℤ), (x : ℤ))) 4
        = (List.countP (fun p => decide (Pixel.gmap p ≠ -1 ∧
            data2hist (Pixel.lmed p) 1 4 4 = (x : ℤ))) [⟨1, 0, 1⟩] : ℚ)) ∧
    (∀ l₂ : List Pixel, List.Perm [⟨1, 0, 1⟩] l₂ →
      calc_histogram (-1) 1 4 4 4 l₂ init_histogram_hist =
        calc_histogram (-1) 1 4 4 4 [⟨1, 0, 1⟩] init_histogram_hist) := by
  refine calc_histogram_cnts (-1) 1 4 4 4 [⟨1, 0, 1⟩] ?_
  intro p hp hg
  have hp1 : p = (⟨1, 0, 1⟩ : Pixel) := by simpa using hp
  subst hp1
  have hbin : data2hist 1 1 4 4 = 0 := by
    unfold data2hist
    norm_num
  refine ⟨⟨by rw [hbin], by rw [hbin]; norm_num⟩, ⟨by rw [hbin], by rw [hbin]; norm_num⟩⟩

/-- Claim C2: on a column with non-negative histogram entries, the
normalized cumulative distribution is non-decreasing in y, lies in
`[0, 1]`, and equals exactly 1 at the last value bin whenever the column
count is non-zero. -/
theorem cumd_monotone_bounded (h : ℕ → ℚ) (hsy : ℕ)
    (hnn : ∀ y, y < hsy → 0 ≤ h y) :
    (∀ y, y + 1 < hsy →
      calc_cumulative_distribution_cumd h hsy y ≤
        calc_cumulative_distribution_cumd h hsy (y + 1)) ∧
    (∀ y, y < hsy →
      0 ≤ calc_cumulative_distribution_cumd h hsy y ∧
        calc_cumulative_distribution_cumd h hsy y ≤ 1) ∧
    (calc_cumulative_distribution_cnts h hsy ≠ 0 →
      calc_cumulative_distribution_cumd h hsy (hsy - 1) = 1) := by
  by_cases hS : col_total h hsy = 0
  · refine ⟨?_, ?_, ?_⟩
    · intro y _
      simp [calc_cumulative_distribution_cumd, hS]
    · intro y _
      simp [calc_cumulative_distribution_cumd, hS]
    · intro hc
      exact absurd hS hc
  · have hnn' : ∀ i ∈ Finset.range hsy, 0 ≤ h i := by
      intro i hi
      exact hnn i (Finset.mem_range.mp hi)
    have hS0 : 0 ≤ col_total h hsy := by
      rw [col_total_eq_sum]
      exact Finset.sum_nonneg hnn'
    have hSpos : 0 < col_total h hsy := lt_of_le_of_ne hS0 (Ne.symm hS)
    have hpart : ∀ y, y < hsy → col_cumsum h y ≤ col_total h hsy := by
      intro y hy
      rw [col_cumsum_eq_sum, col_total_eq_sum]
      refine Finset.sum_le_sum_of_subset_of_nonneg ?_ ?_
      · exact Finset.range_subset.mpr hy
      · intro i hi _
        exact hnn i (Finset.mem_range.mp hi)
    refine ⟨?_, ?_, ?_⟩
    · intro y hy
      have hstep : col_cumsum h y ≤ col_cumsum h (y + 1) := by
        have := hnn (y + 1) hy
        rw [show col_cumsum h (y + 1) = col_cumsum h y + h (y + 1) from rfl]
        linarith
      simp only [calc_cumulative_distribution_cumd, if_pos hS]
      gcongr
    · intro y hy
      have h0 : 0 ≤ col_cumsum h y := by
        rw [col_cumsum_eq_sum]
        refine Finset.sum_nonneg ?_
        intro i hi
        exact hnn i (lt_of_lt_of_le (Finset.mem_range.mp hi) hy)
      simp only [calc_cumulative_distribution_cumd, if_pos hS]
      constructor
      · exact div_nonneg h0 hS0
      · exact (div_le_one hSpos).mpr (hpart y hy)
    · intro hc
      have hsy1 : 1 ≤ hsy := by
        by_contra hcon
        have : hsy = 0 := by omega
        subst this
        exact hS rfl
      obtain ⟨k, rfl⟩ : ∃ k, hsy = k + 1 := ⟨hsy - 1, by omega⟩
      have hlast : col_cumsum h (k + 1 - 1) = col_total h (k + 1) := by
        simp [col_total]
      simp only [calc_cumulative_distribution_cumd, if_pos hS, hlast]
      exact div_self hS

/-- Witness for C2 with a constant-1 two-bin column. -/
theorem cumd_monotone_bounded_witness :
    (∀ y, y + 1 < 2 →
      calc_cumulative_distribution_cumd (fun _ => 1) 2 y ≤
        calc_cumulative_distribution_cumd (fun _ => 1) 2 (y + 1)) ∧
    (∀ y, y < 2 →
      0 ≤ calc_cumulative_distribution_cumd (fun _ => 1) 2 y ∧
        calc_cumulative_distribution_cumd (fun _ => 1) 2 y ≤ 1) ∧
    (calc_cumulative_distribution_cnts (fun _ => 1) 2 ≠ 0 →
      calc_cumulative_distribution_cumd (fun _ => 1) 2 (2 - 1) = 1) :=
  cumd_monotone_bounded (fun _ => 1) 2 (fun y _ => by norm_num)

/-- Claim C8: when the raw histogram sum of a column (2D path) or of the
whole intensity histogram (1D path) is exactly 0, the explicit zero branch
of the normalize loop sets every normalized cumulative-distribution entry
and every normalized histogram entry to exactly 0, and the recorded count
is 0. -/
theorem zero_sum_normalization (h ihst : ℕ → ℚ) (hsy hsx : ℕ)
    (h2d : col_total h hsy = 0) (h1d : col_total ihst hsx = 0) :
    (∀ y, calc_cumulative_distribution_cumd h hsy y = 0 ∧
      calc_cumulative_distribution_hist h hsy y = 0) ∧
    calc_cumulative_distribution_cnts h hsy = 0 ∧
    (∀ x, calc_intensity_cumulative_distribution_icmd ihst hsx x = 0 ∧
      calc_intensity_cumulative_distribution_ihst ihst hsx x = 0) := by
  refine ⟨fun y => ⟨?_, ?_⟩, ?_, fun x => ⟨?_, ?_⟩⟩
  · simp [calc_cumulative_distribution_cumd, h2d]
  · simp [calc_cumulative_distribution_hist, h2d]
  · simpa [calc_cumulative_distribution_cnts] using h2d
  · simp [calc_intensity_cumulative_distribution_icmd, h1d]
  · simp [calc_intensity_cumulative_distribution_ihst, h1d]

/-- Witness for C8 with all-zero histograms of sizes 2 and 3. -/
theorem zero_sum_normalization_witness :
    (∀ y, calc_cumulative_distribution_cumd (fun _ => 0) 2 y = 0 ∧
      calc_cumulative_distribution_hist (fun _ => 0) 2 y = 0) ∧
    calc_cumulative_distribution_cnts (fun _ => 0) 2 = 0 ∧
    (∀ x, calc_intensity_cumulative_distribution_icmd (fun _ => 0) 3 x = 0 ∧
      calc_intensity_cumulative_distribution_ihst (fun _ => 0) 3 x = 0) :=
  zero_sum_normalization (fun _ => 0) (fun _ => 0) 2 3
    (by simp [col_total, col_cumsum]) (by simp [col_total, col_cumsum])

/-- Claim C9: for `nbins ≥ 2`, `mmin < mmax` and `0 ≤ i < nbins`, the
round trip `data2hist (hist2data i mmin mmax nbins) mmin mmax nbins`
returns `i`. -/
theorem data2hist_hist2data (nbins : ℕ) (mmin mmax : ℚ) (i : ℤ)
    (hn : 2 ≤ nbins) (hmm : mmin < mmax) (hi0 : 0 ≤ i) (hin : i < (nbins : ℤ)) :
    data2hist (hist2data i mmin mmax nbins) mmin mmax nbins = i := by
  have _ := hi0
  have _ := hin
  unfold data2hist hist2data
  have hn1 : (0 : ℚ) < (nbins : ℚ) - 1 := by
    have : (2 : ℚ) ≤ (nbins : ℚ) := by exact_mod_cast hn
    linarith
  have hd : (0 : ℚ) < (mmax - mmin) / ((nbins : ℚ) - 1) :=
    div_pos (by linarith) hn1
  have hkey : ((i : ℚ) * ((mmax - mmin) / ((nbins : ℚ) - 1)) + mmin - mmin) /
      ((mmax - mmin) / ((nbins : ℚ) - 1)) = (i : ℚ) := by
    rw [add_sub_cancel_right]
    exact mul_div_cancel_right₀ _ (ne_of_gt hd)
  rw [hkey, Int.floor_intCast]

/-- Witness for C9 at the concrete configuration of the 4-bin scenario of
the spec: `nbins = 4`, range `[1, 4]`, bin `i = 2`. -/
theorem data2hist_hist2data_witness :
    data2hist (hist2data 2 1 4 4) 1 4 4 = 2 :=
  data2hist_hist2data 4 1 4 2 (by norm_num) (by norm_num) (by norm_num) (by norm_num)

theorem findAbove_none (c : ℕ → ℚ) (t : ℚ) :
    ∀ f y, findAbove c t y f = none → ∀ z, y ≤ z → z < y + f → ¬ t < c z := by
  intro f
  induction f with
  | zero =>
    intro y _ z hz1 hz2
    omega
  | succ f ih =>
    intro y hnone z hz1 hz2
    rw [findAbove] at hnone
    by_cases hc : t < c y
    · simp [hc] at hnone
    · rw [if_neg hc] at hnone
      rcases Nat.eq_or_lt_of_le hz1 with rfl | hlt
      · exact hc
      · exact ih (y + 1) hnone z hlt (by omega)

theorem findAbove_some (c : ℕ → ℚ) (t : ℚ) :
    ∀ f y r, findAbove c t y f = some r →
      y ≤ r ∧ r < y + f ∧ t < c r ∧ ∀ z, y ≤ z → z < r → ¬ t < c z := by
  intro f
  induction f with
  | zero =>
    intro y r hsome
    simp [findAbove] at hsome
  | succ f ih =>
    intro y r hsome
    rw [findAbove] at hsome
    by_cases hc : t < c y
    · rw [if_pos hc] at hsome
      obtain rfl : y = r := by simpa using hsome
      exact ⟨le_refl _, by omega, hc, fun z hz1 hz2 => absurd (lt_of_le_of_lt hz1 hz2) (lt_irrefl _)⟩
    · rw [if_neg hc] at hsome
      obtain ⟨h1, h2, h3, h4⟩ := ih (y + 1) r hsome
      refine ⟨by omega, by omega, h3, ?_⟩
      intro z hz1 hz2
      rcases Nat.eq_or_lt_of_le hz1 with rfl | hlt
      · exact hc
      · exact h4 z hlt hz2

theorem findAbove_skip (c : ℕ → ℚ) (t : ℚ) :
    ∀ k y f, (∀ z, y ≤ z → z < y + k → ¬ t < c z) →
      findAbove c t y (k + f) = findAbove c t (y + k) f := by
  intro k
  induction k with
  | zero =>
    intro y f _
    rw [Nat.zero_add, Nat.add_zero]
  | succ k ih =>
    intro y f hfail
    have hy : ¬ t < c y := hfail y (le_refl _) (by omega)
    have hstep : findAbove c t y (k + 1 + f) = findAbove c t (y + 1) (k + f) := by
      rw [show k + 1 + f = (k + f) + 1 by omega, findAbove, if_neg hy]
    rw [hstep, ih (y + 1) f (fun z hz1 hz2 => hfail z (by omega) (by omega))]
    congr 1
    omega

theorem exact_lower_stop_le (c : ℕ → ℚ) (tmin : ℚ) (hsy : ℕ) :
    exact_lower_stop c tmin hsy ≤ hsy := by
  unfold exact_lower_stop
  cases hfind : findAbove c tmin 0 hsy with
  | none => exact le_refl _
  | some y =>
    show y ≤ hsy
    have := (findAbove_some c tmin hsy 0 y hfind).2.1
    omega

theorem exact_lower_stop_below (c : ℕ → ℚ) (tmin : ℚ) (hsy : ℕ) :
    ∀ z, z < exact_lower_stop c tmin hsy → ¬ tmin < c z := by
  intro z hz
  unfold exact_lower_stop at hz
  cases hfind : findAbove c tmin 0 hsy with
  | none =>
    rw [hfind] at hz
    replace hz : z < hsy := hz
    exact findAbove_none c tmin hsy 0 hfind z (Nat.zero_le _) (by omega)
  | some y =>
    rw [hfind] at hz
    replace hz : z < y := hz
    exact (findAbove_some c tmin hsy 0 y hfind).2.2.2 z (Nat.zero_le _) hz

/-- Claim C3: on a column whose cumulative distribution is non-decreasing,
and when `tmin ≤ tmax`, the continuation scan of `calc_exact_thresh`
(which resumes the tmax search where the tmin search stopped) assigns `t1`
the same value an independent full scan from `y = 0` would: the first `y`
with `cumd > tmax`, or the initialization value `x` when none exists. -/
theorem calc_exact_thresh_t1_continuation (c : ℕ → ℚ) (tmin tmax : ℚ) (hsy x : ℕ)
    (hmono : ∀ y, y + 1 < hsy → c y ≤ c (y + 1)) (hle : tmin ≤ tmax) :
    calc_exact_thresh_t1 c tmin tmax hsy x = full_scan_t1 c tmax hsy x := by
  have _ := hmono
  have hstop_le : exact_lower_stop c tmin hsy ≤ hsy :=
    exact_lower_stop_le c tmin hsy
  have hbelow : ∀ z, z < exact_lower_stop c tmin hsy → ¬ tmax < c z := by
    intro z hz hcon
    exact exact_lower_stop_below c tmin hsy z hz (lt_of_le_of_lt hle hcon)
  have hkey : findAbove c tmax 0 hsy =
      findAbove c tmax (exact_lower_stop c tmin hsy)
        (hsy - exact_lower_stop c tmin hsy) := by
    have hsplit : hsy = exact_lower_stop c tmin hsy +
        (hsy - exact_lower_stop c tmin hsy) := by omega
    rw [show findAbove c tmax 0 hsy =
        findAbove c tmax 0 (exact_lower_stop c tmin hsy +
          (hsy - exact_lower_stop c tmin hsy)) by rw [← hsplit]]
    rw [findAbove_skip c tmax (exact_lower_stop c tmin hsy) 0
      (hsy - exact_lower_stop c tmin hsy)
      (fun z hz1 hz2 => hbelow z (by omega))]
    congr 1
    omega
  unfold calc_exact_thresh_t1 full_scan_t1
  rw [hkey]

/-- Witness for C3 on a constant column of height 4. -/
theorem calc_exact_thresh_t1_continuation_witness :
    calc_exact_thresh_t1 (fun _ => 1) (1/10) (9/10) 4 0 =
      full_scan_t1 (fun _ => 1) (9/10) 4 0 :=
  calc_exact_thresh_t1_continuation (fun _ => 1) (1/10) (9/10) 4 0
    (fun y _ => le_refl 1) (by norm_num)

theorem apply_step_keeps_anchor (m : ℚ) (cnts : ℕ → ℚ) (mc : ℤ) (x0 hy : ℕ)
    (t : ℕ → ℚ) (n : ℤ) (ht : t x0 = (n : ℚ)) (h0 : 0 ≤ n)
    (h1 : (n : ℚ) ≤ (hy : ℚ) - 1) (x : ℕ) :
    apply_extrap_thresh_step m cnts mc x0 hy t x x0 = (n : ℚ) := by
  unfold apply_extrap_thresh_step
  by_cases hc : cnts x < (mc : ℚ)
  · rw [if_pos hc]
    by_cases hx0 : x0 = x
    · rw [if_pos hx0, ← hx0, ht, fTrunc_intCast]
      rw [show m * (x0 : ℚ) + calc_intercept x0 n m = (n : ℚ) by
        unfold calc_intercept; ring]
      rw [min_eq_left h1, max_eq_left (by exact_mod_cast h0)]
    · rw [if_neg hx0]
      exact ht
  · rw [if_neg hc]
    exact ht

theorem apply_fold_eval (m : ℚ) (cnts : ℕ → ℚ) (mc : ℤ) (x0 hy : ℕ)
    (n : ℤ) (h0 : 0 ≤ n) (h1 : (n : ℚ) ≤ (hy : ℚ) - 1) :
    ∀ (l : List ℕ) (t : ℕ → ℚ), t x0 = (n : ℚ) → l.Nodup →
      (l.foldl (apply_extrap_thresh_step m cnts mc x0 hy) t) x0 = (n : ℚ) ∧
      ∀ x : ℕ,
        (x ∈ l → (l.foldl (apply_extrap_thresh_step m cnts mc x0 hy) t) x =
          (if cnts x < (mc : ℚ) then
            max (min (m * (x : ℚ) + ((n : ℚ) - m * (x0 : ℚ))) ((hy : ℚ) - 1)) 0
          else t x)) ∧
        (x ∉ l → (l.foldl (apply_extrap_thresh_step m cnts mc x0 hy) t) x = t x) := by
  intro l
  induction l with
  | nil =>
    intro t ht _
    exact ⟨ht, fun x => ⟨fun hx => absurd hx (List.not_mem_nil x), fun _ => rfl⟩⟩
  | cons a l ih =>
    intro t ht hnd
    have hnd' : l.Nodup := (List.nodup_cons.mp hnd).2
    have hna : a ∉ l := (List.nodup_cons.mp hnd).1
    have hta : apply_extrap_thresh_step m cnts mc x0 hy t a x0 = (n : ℚ) :=
      apply_step_keeps_anchor m cnts mc x0 hy t n ht h0 h1 a
    have hfold : (a :: l).foldl (apply_extrap_thresh_step m cnts mc x0 hy) t =
        l.foldl (apply_extrap_thresh_step m cnts mc x0 hy)
          (apply_extrap_thresh_step m cnts mc x0 hy t a) := rfl
    obtain ⟨ihanchor, ihx⟩ := ih (apply_extrap_thresh_step m cnts mc x0 hy t a) hta hnd'
    refine ⟨by rw [hfold]; exact ihanchor, ?_⟩
    intro x
    constructor
    · intro hx
      rw [hfold]
      rcases List.mem_cons.mp hx with rfl | hxl
      · rw [(ihx x).2 hna]
        unfold apply_extrap_thresh_step
        by_cases hc : cnts x < (mc : ℚ)
        · rw [if_pos hc, if_pos rfl, ht, fTrunc_intCast]
          unfold calc_intercept
          rw [if_pos hc]
        · rw [if_neg hc, if_neg hc]
      · rw [(ihx x).1 hxl]
        by_cases hc : cnts x < (mc : ℚ)
        · rw [if_pos hc, if_pos hc]
        · rw [if_neg hc, if_neg hc]
          have hxa : x ≠ a := fun hcon => hna (hcon ▸ hxl)
          unfold apply_extrap_thresh_step
          by_cases hca : cnts a < (mc : ℚ)
          · rw [if_pos hca, if_neg hxa]
          · rw [if_neg hca]
    · intro hx
      rw [hfold, (ihx x).2 (fun hxl => hx (List.mem_cons_of_mem a hxl))]
      have hxa : x ≠ a := fun hcon => hx (hcon ▸ List.mem_cons_self a l)
      unfold apply_extrap_thresh_step
      by_cases hca : cnts a < (mc : ℚ)
      · rw [if_pos hca, if_neg hxa]
      · rw [if_neg hca]

/-- Claim C5 (amended): provided the anchor `t[x0]` is an integer bin
value in `[0, hsz.y - 1]` (always the case in the pipeline, where it comes
from `calc_exact_thresh`), after `apply_extrap_thresh` every column `x`
with `cnts[x] < min_samples(thresh)` holds the value of the line
`y = m x + b` through `(x0, t[x0])` clamped into `[0, hsz.y - 1]`, and
every column with `cnts[x] ≥ min_samples(thresh)` keeps exactly the value
it had before the call. -/
theorem apply_extrap_thresh_spec (m : ℚ) (cnts : ℕ → ℚ) (thresh : ℚ)
    (x0 hx hy : ℕ) (t : ℕ → ℚ) (n : ℤ) (ht : t x0 = (n : ℚ)) (h0 : 0 ≤ n)
    (h1 : (n : ℚ) ≤ (hy : ℚ) - 1) :
    ∀ x : ℕ, x < hx →
      (cnts x < (min_samples thresh : ℚ) →
        apply_extrap_thresh m cnts thresh x0 hx hy t x =
          max (min (m * (x : ℚ) + (t x0 - m * (x0 : ℚ))) ((hy : ℚ) - 1)) 0) ∧
      (¬ cnts x < (min_samples thresh : ℚ) →
        apply_extrap_thresh m cnts thresh x0 hx hy t x = t x) := by
  intro x hxlt
  obtain ⟨-, hmain⟩ := apply_fold_eval m cnts (min_samples thresh) x0 hy n h0 h1
    (List.range hx) t ht (List.nodup_range hx)
  have hmem : x ∈ List.range hx := List.mem_range.mpr hxlt
  have hxval := (hmain x).1 hmem
  constructor
  · intro hc
    rw [show apply_extrap_thresh m cnts thresh x0 hx hy t x =
      (List.range hx).foldl
        (apply_extrap_thresh_step m cnts (min_samples thresh) x0 hy) t x from rfl,
      hxval, if_pos hc, ht]
  · intro hc
    rw [show apply_extrap_thresh m cnts thresh x0 hx hy t x =
      (List.range hx).foldl
        (apply_extrap_thresh_step m cnts (min_samples thresh) x0 hy) t x from rfl,
      hxval, if_neg hc]

/-- Witness for C5 (amended) with a flat slope, anchor value 1 inside a
3-bin column range, at column 1. -/
theorem apply_extrap_thresh_spec_witness :
    ((fun _ : ℕ => (0 : ℚ)) 1 < (min_samples (1/2) : ℚ) →
      apply_extrap_thresh 0 (fun _ => 0) (1/2) 0 2 3 (fun _ => 1) 1 =
        max (min (0 * (1 : ℚ) + ((fun _ : ℕ => (1 : ℚ)) 0 - 0 * (0 : ℚ))) ((3 : ℚ) - 1)) 0) ∧
    (¬ (fun _ : ℕ => (0 : ℚ)) 1 < (min_samples (1/2) : ℚ) →
      apply_extrap_thresh 0 (fun _ => 0) (1/2) 0 2 3 (fun _ => 1) 1 = (fun _ : ℕ => (1 : ℚ)) 1) :=
  apply_extrap_thresh_spec 0 (fun _ => 0) (1/2) 0 2 3 (fun _ => 1) 1
    (by norm_num) (by norm_num) (by norm_num) 1 (by norm_num)

/-- Counterexample to claim C5 as stated: with slope 1 (the tangent of the
sweep angle pi/4), `hsz = (2, 2)`, anchor column `x0 = 0` and threshold
curve `t = [-1, 5]` (the t9 sentinel -1 at column 0), all columns
insignificant, the sequential loop first rewrites `t[0]` to 0 (the clamp
of the anchor itself) and the later iteration for column 1 reads the NEW
anchor 0, producing `t[1] = 1`, while the line through the original
`(x0, t[x0]) = (0, -1)` clamps to 0 at column 1. -/
theorem apply_extrap_thresh_anchor_drift :
    apply_extrap_thresh 1 (fun _ => 0) (1/2) 0 2 2
        (fun z => if z = 0 then -1 else 5) 1 = 1 ∧
    max (min ((1 : ℚ) * (1 : ℚ) +
        ((fun z => if z = 0 then (-1 : ℚ) else 5) 0 - 1 * (0 : ℚ))) ((2 : ℚ) - 1)) 0 = 0 := by
  constructor
  · have hmc : min_samples (1/2) = 30 :=
      min_samples_value_at (1/2) (1/2) (by norm_num [min_def]) (by norm_num) 30
        (by norm_num) (by norm_num)
    have hrange2 : List.range 2 = [0, 1] := rfl
    unfold apply_extrap_thresh
    rw [hrange2]
    have ht0 : fTrunc ((fun z => if z = 0 then (-1 : ℚ) else 5) 0) = -1 := by
      rw [show ((fun z => if z = 0 then (-1 : ℚ) else 5) 0) = ((-1 : ℤ) : ℚ) by norm_num]
      exact fTrunc_intCast (-1)
    have hstep0 : apply_extrap_thresh_step 1 (fun _ => 0) (min_samples (1/2)) 0 2
        (fun z => if z = 0 then -1 else 5) 0 =
        fun z => if z = 0 then 0 else (if z = 0 then (-1 : ℚ) else 5) := by
      unfold apply_extrap_thresh_step
      rw [if_pos (by rw [hmc]; norm_num)]
      funext z
      by_cases hz : z = 0
      · rw [if_pos hz, if_pos hz, ht0]
        unfold calc_intercept
        norm_num
      · rw [if_neg hz, if_neg hz]
    show (List.foldl (apply_extrap_thresh_step 1 (fun _ => 0) (min_samples (1/2)) 0 2) _ [0, 1]) 1 = 1
    rw [show List.foldl (apply_extrap_thresh_step 1 (fun _ => 0) (min_samples (1/2)) 0 2)
        (fun z => if z = 0 then -1 else 5) [0, 1] =
        apply_extrap_thresh_step 1 (fun _ => 0) (min_samples (1/2)) 0 2
          (apply_extrap_thresh_step 1 (fun _ => 0) (min_samples (1/2)) 0 2
            (fun z => if z = 0 then -1 else 5) 0) 1 from rfl]
    rw [hstep0]
    unfold apply_extrap_thresh_step
    rw [if_pos (by rw [hmc]; norm_num), if_pos rfl]
    rw [show fTrunc (if (0 : ℕ) = 0 then (0 : ℚ) else if (0 : ℕ) = 0 then (-1 : ℚ) else 5) = 0 by
      rw [show (if (0 : ℕ) = 0 then (0 : ℚ) else if (0 : ℕ) = 0 then (-1 : ℚ) else 5)
        = ((0 : ℤ) : ℚ) by norm_num]
      exact fTrunc_intCast 0]
    unfold calc_intercept
    norm_num
  · norm_num

theorem median_sums_char (m : ℚ) (t cnts : ℕ → ℚ) (mc : ℤ) (x0 : ℕ) :
    ∀ (l : List ℕ) (s : ℚ × ℚ),
      l.foldl (median_extrapolation_count_step m t cnts mc x0) s =
        (s.1 + (l.countP (fun x => decide ((mc : ℚ) < cnts x ∧
            ¬ m * (x : ℚ) + calc_intercept x0 (fTrunc (t x0)) m < t x)) : ℚ),
         s.2 + (l.countP (fun x => decide ((mc : ℚ) < cnts x ∧
            m * (x : ℚ) + calc_intercept x0 (fTrunc (t x0)) m < t x)) : ℚ)) := by
  intro l
  induction l with
  | nil =>
    intro s
    simp
  | cons a l ih =>
    intro s
    have hfold : (a :: l).foldl (median_extrapolation_count_step m t cnts mc x0) s =
        l.foldl (median_extrapolation_count_step m t cnts mc x0)
          (median_extrapolation_count_step m t cnts mc x0 s a) := rfl
    rw [hfold, ih, List.countP_cons, List.countP_cons]
    by_cases hsig : (mc : ℚ) < cnts a
    · by_cases hab : m * (a : ℚ) + calc_intercept x0 (fTrunc (t x0)) m < t a
      · have hstep : median_extrapolation_count_step m t cnts mc x0 s a = (s.1, s.2 + 1) := by
          unfold median_extrapolation_count_step
          rw [if_pos hsig, if_pos hab]
        have hd1 : decide ((mc : ℚ) < cnts a ∧
            ¬ m * (a : ℚ) + calc_intercept x0 (fTrunc (t x0)) m < t a) = false := by
          simp [hsig, hab]
        have hd2 : decide ((mc : ℚ) < cnts a ∧
            m * (a : ℚ) + calc_intercept x0 (fTrunc (t x0)) m < t a) = true := by
          simp [hsig, hab]
        rw [hstep, hd1, hd2]
        refine Prod.ext ?_ ?_
        · push_cast
          ring
        · push_cast
          simp only [if_true]
          ring
      · have hstep : median_extrapolation_count_step m t cnts mc x0 s a = (s.1 + 1, s.2) := by
          unfold median_extrapolation_count_step
          rw [if_pos hsig, if_neg hab]
        have hd1 : decide ((mc : ℚ) < cnts a ∧
            ¬ m * (a : ℚ) + calc_intercept x0 (fTrunc (t x0)) m < t a) = true := by
          simp [hsig, hab]
        have hd2 : decide ((mc : ℚ) < cnts a ∧
            m * (a : ℚ) + calc_intercept x0 (fTrunc (t x0)) m < t a) = false := by
          simp [hsig, hab]
        rw [hstep, hd1, hd2]
        refine Prod.ext ?_ ?_
        · push_cast
          simp only [if_true]
          ring
        · push_cast
          ring
    · have hstep : median_extrapolation_count_step m t cnts mc x0 s a = s := by
        unfold median_extrapolation_count_step
        rw [if_neg hsig]
      have hd1 : decide ((mc : ℚ) < cnts a ∧
          ¬ m * (a : ℚ) + calc_intercept x0 (fTrunc (t x0)) m < t a) = false := by
        simp [hsig]
      have hd2 : decide ((mc : ℚ) < cnts a ∧
          m * (a : ℚ) + calc_intercept x0 (fTrunc (t x0)) m < t a) = false := by
        simp [hsig]
      rw [hstep, hd1, hd2]
      refine Prod.ext ?_ ?_
      · push_cast
        ring
      · push_cast
        ring

theorem countP_split (p q : ℕ → Bool) :
    ∀ l : List ℕ,
      l.countP p = l.countP (fun x => p x && q x) + l.countP (fun x => p x && !(q x)) := by
  intro l
  induction l with
  | nil => simp
  | cons a l ih =>
    simp only [List.countP_cons]
    rw [ih]
    by_cases hp : p a = true
    · by_cases hq : q a = true
      · simp [hp, hq]
        omega
      · simp only [Bool.not_eq_true] at hq
        simp [hp, hq]
        omega
    · simp only [Bool.not_eq_true] at hp
      simp [hp]

theorem median_ratio_eq_frac (m : ℚ) (t cnts : ℕ → ℚ) (mc : ℤ) (x0 hx : ℕ) :
    median_ratio_ok m t cnts mc x0 hx =
      significant_below_frac_ok m ((fTrunc (t x0) : ℤ) : ℚ) t cnts mc x0 hx := by
  have hsums : median_extrapolation_sums m t cnts mc x0 hx =
      (((List.range hx).countP (fun x => decide ((mc : ℚ) < cnts x ∧
          ¬ m * (x : ℚ) + calc_intercept x0 (fTrunc (t x0)) m < t x)) : ℚ),
       ((List.range hx).countP (fun x => decide ((mc : ℚ) < cnts x ∧
          m * (x : ℚ) + calc_intercept x0 (fTrunc (t x0)) m < t x)) : ℚ)) := by
    unfold median_extrapolation_sums
    rw [median_sums_char]
    simp
  have hb : ((List.range hx).filter (fun x => decide ((mc : ℚ) < cnts x))).countP
      (fun x => decide (t x ≤ m * (x : ℚ) + (((fTrunc (t x0) : ℤ) : ℚ) - m * (x0 : ℚ))))
      = (List.range hx).countP (fun x => decide ((mc : ℚ) < cnts x ∧
          ¬ m * (x : ℚ) + calc_intercept x0 (fTrunc (t x0)) m < t x)) := by
    rw [List.countP_filter]
    refine List.countP_congr ?_
    intro x _
    rw [← Bool.decide_and]
    simp only [decide_eq_true_eq]
    unfold calc_intercept
    constructor
    · rintro ⟨hle, hsig⟩
      exact ⟨hsig, not_lt.mpr hle⟩
    · rintro ⟨hsig, hnlt⟩
      exact ⟨not_lt.mp hnlt, hsig⟩
  have hs : ((List.range hx).filter (fun x => decide ((mc : ℚ) < cnts x))).length
      = (List.range hx).countP (fun x => decide ((mc : ℚ) < cnts x ∧
          m * (x : ℚ) + calc_intercept x0 (fTrunc (t x0)) m < t x))
        + (List.range hx).countP (fun x => decide ((mc : ℚ) < cnts x ∧
          ¬ m * (x : ℚ) + calc_intercept x0 (fTrunc (t x0)) m < t x)) := by
    rw [← List.countP_eq_length_filter]
    rw [countP_split (fun x => decide ((mc : ℚ) < cnts x))
      (fun x => decide (m * (x : ℚ) + calc_intercept x0 (fTrunc (t x0)) m < t x))
      (List.range hx)]
    congr 1
    · refine List.countP_congr ?_
      intro x _
      rw [← Bool.decide_and]
    · refine List.countP_congr ?_
      intro x _
      rw [← decide_not, ← Bool.decide_and]
  unfold median_ratio_ok significant_below_frac_ok
  rw [decide_eq_decide, hsums, hb, hs]
  push_cast
  exact Iff.rfl

theorem sweep_first_eq_find (cond : ℕ → Bool) :
    ∀ f k, sweep_first cond k f = ((List.range' k f).find? cond).getD 0 := by
  intro f
  induction f with
  | zero =>
    intro k
    rfl
  | succ f ih =>
    intro k
    rw [sweep_first, List.range'_succ]
    by_cases hc : cond k = true
    · rw [if_pos hc, List.find?_cons_of_pos _ hc]
      rfl
    · rw [if_neg hc, List.find?_cons_of_neg _ hc]
      exact ih (k + 1)

/-- Claim C4 (amended): `median_extrapolation` returns the first angle of
the sweep `theta_k = k * pi / (hsz.x + hsz.y)` (represented by its index
`k`), bounded by `theta_k < pi / 2`, such that among the statistically
significant columns (`cnts[x] > minSamples(thresh)`) the fraction whose
threshold value lies on or below the line through `(x0, trunc(t[x0]))`
with slope `tan(theta_k)` is at least one half — the code reads the
anchor `t[x0]` through an `int` cast — and the index 0 (angle 0) when no
angle of the sweep satisfies the condition, in particular when no column
is statistically significant, since an empty vote fails the ratio test. -/
theorem median_extrapolation_first_accepted (slope : ℕ → ℚ) (t cnts : ℕ → ℚ)
    (thresh : ℚ) (x0 hx hy : ℕ) :
    median_extrapolation slope t cnts thresh x0 hx hy =
      (((List.range (nSteps hx hy)).find? (fun k =>
        significant_below_frac_ok (slope k) ((fTrunc (t x0) : ℤ) : ℚ) t cnts
          (min_samples thresh) x0 hx)).getD 0) := by
  unfold median_extrapolation
  have hfun : (fun k => median_ratio_ok (slope k) t cnts (min_samples thresh) x0 hx)
      = (fun k => significant_below_frac_ok (slope k) ((fTrunc (t x0) : ℤ) : ℚ) t cnts
          (min_samples thresh) x0 hx) := by
    funext k
    exact median_ratio_eq_frac (slope k) t cnts (min_samples thresh) x0 hx
  rw [sweep_first_eq_find, hfun, ← List.range_eq_range']

/-- Counterexample to claim C4 as stated: with `hsz = (2, 2)` (sweep step
pi/4, slopes tan 0 = 0 and tan(pi/4) = 1), threshold curve `[1/2, 3/10]`
(a non-integer anchor at `x0 = 0`), counts `[0, 100]` and `thresh = 1/2`,
the line through the exact anchor `(0, 1/2)` at angle 0 already has the
single significant column below it, so the claimed first angle is 0 — but
the code anchors the line at `(int) 1/2 = 0`, rejects angle 0, and
returns the second sweep angle (index 1). -/
theorem median_extrapolation_trunc_anchor :
    median_extrapolation med_cex_slope med_cex_t med_cex_cnts (1/2) 0 2 2 = 1 ∧
    (((List.range (nSteps 2 2)).find? (fun k =>
      significant_below_frac_ok (med_cex_slope k) (med_cex_t 0) med_cex_t med_cex_cnts
        (min_samples (1/2)) 0 2)).getD 0) = 0 := by
  have hmc : min_samples (1/2) = 30 :=
    min_samples_value_at (1/2) (1/2) (by norm_num [min_def]) (by norm_num) 30
      (by norm_num) (by norm_num)
  have hc0 : med_cex_cnts 0 = 0 := by norm_num [med_cex_cnts]
  have hc1 : med_cex_cnts 1 = 100 := by norm_num [med_cex_cnts]
  have ht0 : med_cex_t 0 = 1/2 := by norm_num [med_cex_t]
  have ht1 : med_cex_t 1 = 3/10 := by norm_num [med_cex_t]
  have hft : fTrunc (med_cex_t 0) = 0 := by
    rw [ht0]
    rw [show fTrunc (1/2 : ℚ) = if 0 ≤ (1/2 : ℚ) then ⌊(1/2 : ℚ)⌋ else ⌈(1/2 : ℚ)⌉ from rfl]
    norm_num
  have hs0 : med_cex_slope 0 = 0 := by norm_num [med_cex_slope]
  have hs1 : med_cex_slope 1 = 1 := by norm_num [med_cex_slope]
  have hstepA : ∀ mm : ℚ, median_extrapolation_count_step mm med_cex_t med_cex_cnts
      30 0 (0, 0) 0 = (0, 0) := by
    intro mm
    unfold median_extrapolation_count_step
    rw [if_neg (show ¬ ((30 : ℤ) : ℚ) < med_cex_cnts 0 by rw [hc0]; norm_num)]
  have hstepB : median_extrapolation_count_step (med_cex_slope 0) med_cex_t med_cex_cnts
      30 0 (0, 0) 1 = (0, 1) := by
    unfold median_extrapolation_count_step
    rw [if_pos (show ((30 : ℤ) : ℚ) < med_cex_cnts 1 by rw [hc1]; norm_num)]
    rw [if_pos (show med_cex_slope 0 * ((1 : ℕ) : ℚ) +
        calc_intercept 0 (fTrunc (med_cex_t 0)) (med_cex_slope 0) < med_cex_t 1 by
      rw [hs0, hft, ht1]
      unfold calc_intercept
      norm_num)]
    norm_num
  have hstepD : median_extrapolation_count_step (med_cex_slope 1) med_cex_t med_cex_cnts
      30 0 (0, 0) 1 = (1, 0) := by
    unfold median_extrapolation_count_step
    rw [if_pos (show ((30 : ℤ) : ℚ) < med_cex_cnts 1 by rw [hc1]; norm_num)]
    rw [if_neg (show ¬ med_cex_slope 1 * ((1 : ℕ) : ℚ) +
        calc_intercept 0 (fTrunc (med_cex_t 0)) (med_cex_slope 1) < med_cex_t 1 by
      rw [hs1, hft, ht1]
      unfold calc_intercept
      norm_num)]
    norm_num
  have hsum0 : median_extrapolation_sums (med_cex_slope 0) med_cex_t med_cex_cnts 30 0 2
      = (0, 1) := by
    unfold median_extrapolation_sums
    rw [show List.range 2 = [0, 1] from rfl]
    show median_extrapolation_count_step (med_cex_slope 0) med_cex_t med_cex_cnts 30 0
      (median_extrapolation_count_step (med_cex_slope 0) med_cex_t med_cex_cnts 30 0
        (0, 0) 0) 1 = (0, 1)
    rw [hstepA, hstepB]
  have hsum1 : median_extrapolation_sums (med_cex_slope 1) med_cex_t med_cex_cnts 30 0 2
      = (1, 0) := by
    unfold median_extrapolation_sums
    rw [show List.range 2 = [0, 1] from rfl]
    show median_extrapolation_count_step (med_cex_slope 1) med_cex_t med_cex_cnts 30 0
      (median_extrapolation_count_step (med_cex_slope 1) med_cex_t med_cex_cnts 30 0
        (0, 0) 0) 1 = (1, 0)
    rw [hstepA, hstepD]
  have hcondF : median_ratio_ok (med_cex_slope 0) med_cex_t med_cex_cnts 30 0 2 = false := by
    unfold median_ratio_ok
    rw [hsum0]
    simp only [decide_eq_false_iff_not]
    norm_num
  have hcondT : median_ratio_ok (med_cex_slope 1) med_cex_t med_cex_cnts 30 0 2 = true := by
    unfold median_ratio_ok
    rw [hsum1]
    simp only [decide_eq_true_eq]
    norm_num
  constructor
  · unfold median_extrapolation
    rw [sweep_first_eq_find]
    simp only [hmc]
    rw [show List.range' 0 (nSteps 2 2) = [0, 1] from rfl]
    simp only [List.find?, hcondF, hcondT]
    rfl
  · have hfil : (List.range 2).filter (fun x => decide (((30 : ℤ) : ℚ) < med_cex_cnts x))
        = [1] := by
      have hd0 : decide (((30 : ℤ) : ℚ) < med_cex_cnts 0) = false := by
        simp only [decide_eq_false_iff_not]
        rw [hc0]
        norm_num
      have hd1 : decide (((30 : ℤ) : ℚ) < med_cex_cnts 1) = true := by
        simp only [decide_eq_true_eq]
        rw [hc1]
        norm_num
      rw [show List.range 2 = [0, 1] from rfl]
      simp only [List.filter, hd0, hd1]
    have hp1 : decide (med_cex_t 1 ≤ med_cex_slope 0 * ((1 : ℕ) : ℚ) +
        (med_cex_t 0 - med_cex_slope 0 * ((0 : ℕ) : ℚ))) = true := by
      simp only [decide_eq_true_eq]
      rw [ht1, ht0, hs0]
      norm_num
    have hspec0 : significant_below_frac_ok (med_cex_slope 0) (med_cex_t 0) med_cex_t
        med_cex_cnts 30 0 2 = true := by
      unfold significant_below_frac_ok
      rw [hfil]
      simp only [decide_eq_true_eq, List.countP_cons, List.countP_nil, hp1,
        List.length_cons, List.length_nil]
      norm_num
    simp only [hmc]
    rw [show List.range (nSteps 2 2) = [0, 1] from rfl]
    simp only [List.find?, hspec0]
    rfl

theorem intensity_scan_no_cross (c : ℕ → ℚ) (t : ℚ) (f : ℕ → ℚ) :
    ∀ (l : List ℕ) (s : Bool × ℚ), (∀ x ∈ l, ¬ t < c x) →
      l.foldl (intensity_scan_step c t f) s = s := by
  intro l
  induction l with
  | nil =>
    intro s _
    rfl
  | cons a l ih =>
    intro s hno
    have hstep : intensity_scan_step c t f s a = s := by
      unfold intensity_scan_step
      rw [if_neg]
      rintro ⟨hc, -⟩
      exact hno a (List.mem_cons_self a l) hc
    show l.foldl (intensity_scan_step c t f) (intensity_scan_step c t f s a) = s
    rw [hstep]
    exact ih s (fun x hx => hno x (List.mem_cons_of_mem a hx))

theorem intensity_scan_found_fixed (c : ℕ → ℚ) (t : ℚ) (f : ℕ → ℚ) :
    ∀ (l : List ℕ) (v : ℚ),
      l.foldl (intensity_scan_step c t f) (true, v) = (true, v) := by
  intro l
  induction l with
  | nil =>
    intro v
    rfl
  | cons a l ih =>
    intro v
    have hstep : intensity_scan_step c t f (true, v) a = (true, v) := by
      unfold intensity_scan_step
      rw [if_neg]
      rintro ⟨-, hfound⟩
      simp at hfound
    show l.foldl (intensity_scan_step c t f) (intensity_scan_step c t f (true, v) a) = (true, v)
    rw [hstep]
    exact ih v

/-- Claim C10: in the 1D intensity path, when no `icmd` entry strictly
exceeds `tmin`, `i9` keeps its initialization value 0 (and likewise `i1`
keeps 0 when no entry exceeds `tmax`) — not the `x - 1` / `x` sentinels of
the 2D path — and when the very first bin already exceeds `tmin`, `i9` is
set to `0 - 1 = -1`, one below the valid bin range. -/
theorem calc_intensity_thresh_defaults (icmd : ℕ → ℚ) (tmin tmax : ℚ) (hsx : ℕ) :
    ((∀ x, x < hsx → ¬ tmin < icmd x) →
      calc_intensity_thresh_i9 icmd tmin hsx = 0) ∧
    ((∀ x, x < hsx → ¬ tmax < icmd x) →
      calc_intensity_thresh_i1 icmd tmax hsx = 0) ∧
    (0 < hsx → tmin < icmd 0 →
      calc_intensity_thresh_i9 icmd tmin hsx = -1) := by
  refine ⟨?_, ?_, ?_⟩
  · intro hno
    unfold calc_intensity_thresh_i9
    rw [intensity_scan_no_cross icmd tmin _ (List.range hsx) (false, 0)
      (fun x hx => hno x (List.mem_range.mp hx))]
  · intro hno
    unfold calc_intensity_thresh_i1
    rw [intensity_scan_no_cross icmd tmax _ (List.range hsx) (false, 0)
      (fun x hx => hno x (List.mem_range.mp hx))]
  · intro hpos hc
    unfold calc_intensity_thresh_i9
    obtain ⟨k, rfl⟩ : ∃ k, hsx = k + 1 := ⟨hsx - 1, by omega⟩
    rw [List.range_succ_eq_map]
    have hstep : intensity_scan_step icmd tmin (fun x => (x : ℚ) - 1) (false, 0) 0
        = (true, -1) := by
      unfold intensity_scan_step
      rw [if_pos ⟨hc, rfl⟩]
      norm_num
    show (((List.map Nat.succ (List.range k)).foldl
      (intensity_scan_step icmd tmin (fun x => (x : ℚ) - 1))
      (intensity_scan_step icmd tmin (fun x => (x : ℚ) - 1) (false, 0) 0))).2 = -1
    rw [hstep, intensity_scan_found_fixed]

/-- Witness for C10: a flat cumulative distribution below both cutoffs
(parts one and two) and one whose first bin exceeds the cutoff (part
three). -/
theorem calc_intensity_thresh_defaults_witness :
    calc_intensity_thresh_i9 (fun _ => 0) 1 3 = 0 ∧
    calc_intensity_thresh_i1 (fun _ => 0) 1 3 = 0 ∧
    calc_intensity_thresh_i9 (fun _ => 1) 0 3 = -1 :=
  ⟨(calc_intensity_thresh_defaults (fun _ => 0) 1 1 3).1
      (fun x _ => by norm_num),
   (calc_intensity_thresh_defaults (fun _ => 0) 1 1 3).2.1
      (fun x _ => by norm_num),
   (calc_intensity_thresh_defaults (fun _ => 1) 0 0 3).2.2
      (by norm_num) (by norm_num)⟩

/-- Counterexample to claim C6 as stated: at `thresh = 2/5` the code
computes `15 / (2/5) = 37.5` and the `int` conversion truncates to `37`,
while `ceil` of the same quotient is `38`. -/
theorem min_samples_not_ceil :
    min_samples (2/5) = 37 ∧ ⌈(15 : ℚ) / min (1 - 2/5) (2/5)⌉ = 38 ∧
      min_samples (2/5) ≠ ⌈(15 : ℚ) / min (1 - 2/5) (2/5)⌉ := by
  have hmin : min ((1 : ℚ) - 2/5) (2/5) = 2/5 := by norm_num [min_def]
  have h1 : min_samples (2/5) = 37 := by
    unfold min_samples fTrunc
    rw [hmin]
    norm_num
  have h2 : ⌈(15 : ℚ) / min (1 - 2/5) (2/5)⌉ = 38 := by
    rw [hmin, Int.ceil_eq_iff]
    norm_num
  exact ⟨h1, h2, by rw [h1, h2]; norm_num⟩

/-- Claim C6 (amended): for `thresh ∈ (0, 1)`, `min_samples thresh` equals
the floor (truncation), not the ceiling, of `sigma / interval` with
`interval = min (1 - thresh) thresh` and `sigma = 15`. -/
theorem min_samples_eq_floor (thresh : ℚ) (h0 : 0 < thresh) (h1 : thresh < 1) :
    min_samples thresh = ⌊(15 : ℚ) / min (1 - thresh) thresh⌋ := by
  have hpos : 0 < min (1 - thresh) thresh := lt_min (by linarith) h0
  have hq : 0 ≤ (15 : ℚ) / min (1 - thresh) thresh :=
    le_of_lt (div_pos (by norm_num) hpos)
  exact fTrunc_eq_floor _ hq

/-- Witness for C6 (amended) at `thresh = 2/5`. -/
theorem min_samples_eq_floor_witness :
    min_samples (2/5) = ⌊(15 : ℚ) / min (1 - 2/5) (2/5)⌋ :=
  min_samples_eq_floor (2/5) (by norm_num) (by norm_num)

/-- Counterexample to claim C7 as stated: `min_samples (1/2) = 30` is
smaller, not larger, than `min_samples (1/10) = 150`. -/
theorem min_samples_half_not_max :
    min_samples (1/2) = 30 ∧ min_samples (1/10) = 150 ∧
      ¬ min_samples (1/10) ≤ min_samples (1/2) := by
  have h1 : min_samples (1/2) = 30 :=
    min_samples_value_at (1/2) (1/2) (by norm_num [min_def]) (by norm_num) 30
      (by norm_num) (by norm_num)
  have h2 : min_samples (1/10) = 150 :=
    min_samples_value_at (1/10) (1/10) (by norm_num [min_def]) (by norm_num) 150
      (by norm_num) (by norm_num)
  exact ⟨h1, h2, by rw [h1, h2]; norm_num⟩

/-- Claim C7 (amended): `min_samples (1/2) ≤ min_samples (1/10)` and
`min_samples (1/2) ≤ min_samples (9/10)`; `min_samples` is symmetric about
`1/2`, and it grows (not shrinks) as `thresh` moves away from `1/2`. -/
theorem min_samples_symm_min_at_half :
    min_samples (1/2) ≤ min_samples (1/10) ∧
      min_samples (1/2) ≤ min_samples (9/10) ∧
      ∀ t : ℚ, min_samples t = min_samples (1 - t) := by
  have h1 : min_samples (1/2) = 30 :=
    min_samples_value_at (1/2) (1/2) (by norm_num [min_def]) (by norm_num) 30
      (by norm_num) (by norm_num)
  have h2 : min_samples (1/10) = 150 :=
    min_samples_value_at (1/10) (1/10) (by norm_num [min_def]) (by norm_num) 150
      (by norm_num) (by norm_num)
  have hsymm : ∀ t : ℚ, min_samples t = min_samples (1 - t) := by
    intro t
    unfold min_samples
    rw [show (1 : ℚ) - (1 - t) = t by ring, min_comm]
  have h3 : min_samples (9/10) = 150 :=
    min_samples_value_at (9/10) (1/10) (by norm_num [min_def]) (by norm_num) 150
      (by norm_num) (by norm_num)
  exact ⟨by rw [h1, h2]; norm_num, by rw [h1, h3]; norm_num, hsymm⟩

end Dspk
